import Mathlib

/-
Verification of the LinuxTrainerCLI repository (src/checker.py and
src/trainer.py) against its natural-language specification.

Python strings are modelled as lists of characters (`PyStr`).  The string
primitives used by the source — `str.strip()`, `str.split()` (no argument),
`str.join`, `str.lower()` — are modelled faithfully below, restricted to the
ASCII whitespace characters Python treats as whitespace.
-/

/-- A Python `str`, modelled as the list of its characters. -/
abbrev PyStr := List Char

/-- The ASCII whitespace characters recognised by Python's `str.strip()` /
`str.split()` with no arguments: space, tab, newline, carriage return,
vertical tab and form feed. -/
def py_isspace (c : Char) : Bool :=
  c = ' ' || c = '\t' || c = '\n' || c = '\r' || c = '\x0b' || c = '\x0c'

/-- Python `s.strip()` with no argument: remove leading and trailing
whitespace characters. -/
def py_strip (s : PyStr) : PyStr :=
  ((s.dropWhile py_isspace).reverse.dropWhile py_isspace).reverse

/-- One step (right fold) of splitting a string at whitespace characters:
a whitespace character opens a fresh (initially empty) segment, any other
character is prepended to the current first segment. -/
def splitWSstep (c : Char) (acc : List PyStr) : List PyStr :=
  if py_isspace c then [] :: acc
  else
    match acc with
    | [] => [[c]]
    | w :: ws => (c :: w) :: ws

/-- Split a string at every whitespace character, keeping empty segments
(the segment decomposition used by Python's `str.split`). -/
def splitWS (s : PyStr) : List PyStr :=
  s.foldr splitWSstep [[]]

/-- Python `s.split()` with no argument: split on runs of whitespace and
drop all empty parts. -/
def py_split (s : PyStr) : List PyStr :=
  (splitWS s).filter (fun w => !w.isEmpty)

/-- Python `sep.join(parts)`: concatenate `parts` with `sep` between
consecutive elements. -/
def py_join (sep : PyStr) : List PyStr → PyStr
  | [] => []
  | [w] => w
  | w :: ws => w ++ sep ++ py_join sep ws

/-- Python `s.lower()` (ASCII case folding, which is all the trainer's
keywords need). -/
def py_lower (s : PyStr) : PyStr :=
  s.map Char.toLower

/-- `normalise_command` from src/checker.py:
`return " ".join(cmd.strip().split())`. -/
def normalise_command (cmd : PyStr) : PyStr :=
  py_join " ".data (py_split (py_strip cmd))

/-- `check_command` from src/checker.py.  `expected_command` is `Optional[str]`;
the Python guard `if not expected_command` fires when it is `None` or the
empty string.  The rules appear in source order: Rule 1 exact match after
normalisation, Rule 2 `ls` tolerance, Rule 3 `history` tolerance, Rule 4
nano/vi editor substitution (second token must agree, both sides needing at
least two tokens), Rule 5 default `False`. -/
def check_command (user_input : PyStr) (expected_command : Option PyStr) : Bool :=
  match expected_command with
  | none => false
  | some ec =>
    if ec = [] then false
    else
      let user_norm := normalise_command user_input
      let expected_norm := normalise_command ec
      if user_norm = expected_norm then true
      else
        let user_parts := py_split user_norm
        let expected_parts := py_split expected_norm
        let user_base := user_parts.headD []
        let expected_base := expected_parts.headD []
        if expected_norm = "ls".data ∧ user_base = "ls".data then true
        else if expected_norm = "history".data ∧ user_base = "history".data then true
        else if expected_base = "nano".data ∧ (user_base = "nano".data ∨ user_base = "vi".data) then
          if 1 < expected_parts.length ∧ 1 < user_parts.length then
            let expected_file := expected_parts.getD 1 []
            let user_file := user_parts.getD 1 []
            decide (expected_file = user_file)
          else false
        else false

example : normalise_command "  ls   -l  ".data = "ls -l".data := by decide
example : check_command "ls -la".data (some "ls".data) = true := by decide
example : check_command "ls".data (some "ls -la".data) = false := by decide
example : check_command "vi notes.txt".data (some "nano notes.txt".data) = true := by decide
example : check_command "vi other.txt".data (some "nano notes.txt".data) = false := by decide
example : check_command "vi".data (some "nano notes.txt".data) = false := by decide
example : check_command "history 5".data (some "history".data) = true := by decide
example : check_command "history".data (some "history 5".data) = false := by decide
example : check_command "pwd".data (some "ls".data) = false := by decide
example : check_command "vi notes.txt -w".data (some "nano notes.txt".data) = true := by decide
example : check_command "".data (some " ".data) = true := by decide

/-! Structural lemmas about the whitespace-splitting model, leading to
idempotence of `normalise_command`. -/

theorem splitWS_ne_nil (s : PyStr) : splitWS s ≠ [] := by
  induction s with
  | nil => simp [splitWS]
  | cons c cs ih =>
    show splitWSstep c (splitWS cs) ≠ []
    unfold splitWSstep
    split
    · simp
    · match h : splitWS cs with
      | [] => exact absurd h ih
      | w :: ws => simp

theorem splitWS_cons (c : Char) (cs : PyStr) :
    splitWS (c :: cs) = splitWSstep c (splitWS cs) := rfl

theorem splitWS_append (u v : PyStr) :
    splitWS (u ++ v) = u.foldr splitWSstep (splitWS v) := by
  simp [splitWS, List.foldr_append]

theorem splitWS_allspace (v : PyStr) (h : ∀ c ∈ v, py_isspace c = true) :
    splitWS v = List.replicate (v.length + 1) [] := by
  induction v with
  | nil => simp [splitWS]
  | cons c cs ih =>
    have hc : py_isspace c = true := h c (by simp)
    have ihs : splitWS cs = List.replicate (cs.length + 1) [] :=
      ih (fun d hd => h d (by simp [hd]))
    rw [splitWS_cons, splitWSstep.eq_def, if_pos hc, ihs]
    simp [List.replicate_succ]

theorem filter_replicate_nil (k : Nat) :
    (List.replicate k ([] : PyStr)).filter (fun w => !w.isEmpty) = [] := by
  induction k with
  | zero => simp
  | succ n ih => simp [List.replicate_succ, ih]

/-- Folding `splitWSstep` over any tail of empty segments gives the same
first segment as folding over a single empty segment, and tails with the
same nonempty parts. -/
theorem foldr_splitWSstep_replicate (u : PyStr) (k : Nat) :
    ∃ w t t', u.foldr splitWSstep (List.replicate (k + 1) []) = w :: t ∧
      u.foldr splitWSstep [[]] = w :: t' ∧
      t.filter (fun w => !w.isEmpty) = t'.filter (fun w => !w.isEmpty) := by
  induction u with
  | nil =>
    refine ⟨[], List.replicate k [], [], ?_, by simp, ?_⟩
    · simp [List.replicate_succ]
    · simp [filter_replicate_nil]
  | cons c cs ih =>
    obtain ⟨w, t, t', h1, h2, h3⟩ := ih
    by_cases hc : py_isspace c = true
    · refine ⟨[], cs.foldr splitWSstep (List.replicate (k + 1) []),
        cs.foldr splitWSstep [[]], ?_, ?_, ?_⟩
      · simp [List.foldr_cons, splitWSstep, hc]
      · simp [List.foldr_cons, splitWSstep, hc]
      · rw [h1, h2]
        simp only [List.filter_cons]
        rw [h3]
    · refine ⟨c :: w, t, t', ?_, ?_, h3⟩
      · simp [List.foldr_cons, h1, splitWSstep, hc]
      · simp [List.foldr_cons, h2, splitWSstep, hc]

theorem py_split_append_space (u v : PyStr) (h : ∀ c ∈ v, py_isspace c = true) :
    py_split (u ++ v) = py_split u := by
  obtain ⟨w, t, t', h1, h2, h3⟩ := foldr_splitWSstep_replicate u v.length
  unfold py_split
  rw [splitWS_append, splitWS_allspace v h, h1, show splitWS u = u.foldr splitWSstep [[]] from rfl,
    h2]
  simp only [List.filter_cons]
  rw [h3]

theorem py_split_dropWhile (s : PyStr) :
    py_split (s.dropWhile py_isspace) = py_split s := by
  induction s with
  | nil => rfl
  | cons c cs ih =>
    by_cases hc : py_isspace c = true
    · rw [List.dropWhile_cons_of_pos hc, ih]
      unfold py_split
      rw [splitWS_cons, splitWSstep.eq_def, if_pos hc]
      simp
    · rw [List.dropWhile_cons_of_neg (by simp [hc])]

theorem mem_takeWhile_space (l : PyStr) :
    ∀ c ∈ l.takeWhile py_isspace, py_isspace c = true := by
  induction l with
  | nil => simp
  | cons a as ih =>
    intro c hc
    by_cases ha : py_isspace a = true
    · rw [List.takeWhile_cons_of_pos ha] at hc
      rcases List.mem_cons.mp hc with h | h
      · exact h ▸ ha
      · exact ih c h
    · rw [List.takeWhile_cons_of_neg (by simp [ha])] at hc
      exact absurd hc (List.not_mem_nil c)

theorem py_split_strip (s : PyStr) : py_split (py_strip s) = py_split s := by
  set t := s.dropWhile py_isspace with ht
  have hdecomp : t = (t.reverse.dropWhile py_isspace).reverse ++
      (t.reverse.takeWhile py_isspace).reverse := by
    calc t = t.reverse.reverse := (List.reverse_reverse t).symm
      _ = (t.reverse.takeWhile py_isspace ++ t.reverse.dropWhile py_isspace).reverse := by
          rw [List.takeWhile_append_dropWhile]
      _ = (t.reverse.dropWhile py_isspace).reverse ++ (t.reverse.takeWhile py_isspace).reverse := by
          rw [List.reverse_append]
  have hsp : ∀ c ∈ (t.reverse.takeWhile py_isspace).reverse, py_isspace c = true := by
    intro c hc
    exact mem_takeWhile_space t.reverse c (List.mem_reverse.mp hc)
  have : py_split t = py_split (t.reverse.dropWhile py_isspace).reverse := by
    conv_lhs => rw [hdecomp]
    exact py_split_append_space _ _ hsp
  unfold py_strip
  rw [← ht, ← this]
  exact py_split_dropWhile s

theorem mem_splitWS_nospace (s : PyStr) :
    ∀ w ∈ splitWS s, ∀ c ∈ w, py_isspace c = false := by
  induction s with
  | nil =>
    intro w hw c hc
    simp [splitWS] at hw
    subst hw
    exact absurd hc (List.not_mem_nil c)
  | cons a as ih =>
    intro w hw c hc
    rw [splitWS_cons, splitWSstep.eq_def] at hw
    by_cases ha : py_isspace a = true
    · rw [if_pos ha] at hw
      rcases List.mem_cons.mp hw with h | h
      · subst h
        exact absurd hc (List.not_mem_nil c)
      · exact ih w h c hc
    · rw [if_neg ha] at hw
      obtain ⟨w0, ws0, hws⟩ := List.exists_cons_of_ne_nil (splitWS_ne_nil as)
      rw [hws] at hw
      simp only at hw
      rcases List.mem_cons.mp hw with h | h
      · subst h
        rcases List.mem_cons.mp hc with h' | h'
        · subst h'
          simpa using ha
        · exact ih w0 (hws ▸ List.mem_cons_self w0 ws0) c h'
      · exact ih w (hws ▸ List.mem_cons_of_mem w0 h) c hc

theorem py_split_good (s : PyStr) :
    ∀ w ∈ py_split s, w ≠ [] ∧ ∀ c ∈ w, py_isspace c = false := by
  intro w hw
  unfold py_split at hw
  have hmem := List.mem_of_mem_filter hw
  have hne : w ≠ [] := by
    have := List.of_mem_filter hw
    simpa [List.isEmpty_iff] using this
  exact ⟨hne, mem_splitWS_nospace s w hmem⟩

theorem foldr_splitWSstep_nospace (w : PyStr) (hw : ∀ c ∈ w, py_isspace c = false)
    (a : PyStr) (as : List PyStr) :
    w.foldr splitWSstep (a :: as) = (w ++ a) :: as := by
  induction w with
  | nil => simp
  | cons c cs ih =>
    have hc : py_isspace c = false := hw c (by simp)
    have ihs := ih (fun d hd => hw d (by simp [hd]))
    simp only [List.foldr_cons, ihs, splitWSstep.eq_def, hc]
    simp

theorem py_split_join (ws : List PyStr)
    (h : ∀ w ∈ ws, w ≠ [] ∧ ∀ c ∈ w, py_isspace c = false) :
    py_split (py_join " ".data ws) = ws := by
  induction ws with
  | nil => rfl
  | cons w ws ih =>
    obtain ⟨hwne, hwsp⟩ := h w (by simp)
    match ws with
    | [] =>
      show py_split w = [w]
      unfold py_split
      have : splitWS w = [w] := by
        show w.foldr splitWSstep [[]] = [w]
        rw [foldr_splitWSstep_nospace w hwsp [] []]
        simp
      rw [this]
      simp [List.isEmpty_iff, hwne]
    | x :: xs =>
      have ihs : py_split (py_join " ".data (x :: xs)) = x :: xs :=
        ih (fun v hv => h v (by simp [hv]))
      show py_split (w ++ " ".data ++ py_join " ".data (x :: xs)) = w :: x :: xs
      have hdata : " ".data = [' '] := rfl
      rw [hdata, List.append_assoc]
      unfold py_split
      rw [splitWS_append, show ([' '] ++ py_join [' '] (x :: xs)) =
        ' ' :: py_join [' '] (x :: xs) from rfl, splitWS_cons, splitWSstep.eq_def]
      rw [if_pos (by decide : py_isspace ' ' = true)]
      rw [foldr_splitWSstep_nospace w hwsp [] _]
      simp only [List.append_nil, List.filter_cons]
      rw [if_pos (by simp [List.isEmpty_iff, hwne])]
      have hfin : (splitWS (py_join [' '] (x :: xs))).filter (fun w => !w.isEmpty) = x :: xs := by
        have h2 := ihs
        unfold py_split at h2
        rw [hdata] at h2
        exact h2
      rw [hfin]

theorem normalise_eq_join_split (s : PyStr) :
    normalise_command s = py_join " ".data (py_split s) := by
  unfold normalise_command
  rw [py_split_strip]

theorem normalise_idem (s : PyStr) :
    normalise_command (normalise_command s) = normalise_command s := by
  rw [normalise_eq_join_split s, normalise_eq_join_split, py_split_join _ (py_split_good s)]


/-! Claim theorems about the Matcher (src/checker.py). -/

/-- Unfolded form of `check_command` on a present, non-empty expected command. -/
theorem check_command_some (u ec : PyStr) (h : ec ≠ []) :
    check_command u (some ec) =
      (if normalise_command u = normalise_command ec then true
       else if normalise_command ec = "ls".data ∧
           (py_split (normalise_command u)).headD [] = "ls".data then true
       else if normalise_command ec = "history".data ∧
           (py_split (normalise_command u)).headD [] = "history".data then true
       else if (py_split (normalise_command ec)).headD [] = "nano".data ∧
           ((py_split (normalise_command u)).headD [] = "nano".data ∨
            (py_split (normalise_command u)).headD [] = "vi".data) then
         if 1 < (py_split (normalise_command ec)).length ∧
             1 < (py_split (normalise_command u)).length then
           decide ((py_split (normalise_command ec)).getD 1 [] =
             (py_split (normalise_command u)).getD 1 [])
         else false
       else false) := by
  simp only [check_command]
  rw [if_neg h]

/-- General form of Rule 4 (editor substitution): when the expected command's
first token is `nano` and the user's first token is `nano` or `vi`, the
verdict is the equality of the second tokens when both sides have at least
two tokens, and otherwise reduces to the Rule 1 exact comparison. -/
theorem check_command_rule4 (u e : PyStr)
    (he : (py_split (normalise_command e)).headD [] = "nano".data)
    (hu : (py_split (normalise_command u)).headD [] = "nano".data ∨
      (py_split (normalise_command u)).headD [] = "vi".data) :
    check_command u (some e) =
      if 1 < (py_split (normalise_command e)).length ∧
          1 < (py_split (normalise_command u)).length then
        decide ((py_split (normalise_command e)).getD 1 [] =
          (py_split (normalise_command u)).getD 1 [])
      else decide (normalise_command u = normalise_command e) := by
  have hene : e ≠ [] := by
    intro hh
    subst hh
    exact absurd he (by decide)
  rw [check_command_some u e hene]
  by_cases h1 : normalise_command u = normalise_command e
  · rw [if_pos h1, h1]
    split
    · simp
    · simp
  · rw [if_neg h1]
    have hls : ¬(normalise_command e = "ls".data ∧
        (py_split (normalise_command u)).headD [] = "ls".data) := by
      rintro ⟨h2, -⟩
      rw [h2] at he
      exact absurd he (by decide)
    have hhist : ¬(normalise_command e = "history".data ∧
        (py_split (normalise_command u)).headD [] = "history".data) := by
      rintro ⟨h2, -⟩
      rw [h2] at he
      exact absurd he (by decide)
    rw [if_neg hls, if_neg hhist, if_pos ⟨he, hu⟩]
    split
    · rfl
    · simp [h1]

/-- C5: `matches(x, expected)` is false whenever `expected` is absent
(`None`) or the empty string, for every user input `x`, without inspecting
`x`. -/
theorem check_command_no_expected (x : PyStr) :
    check_command x none = false ∧ check_command x (some []) = false :=
  ⟨rfl, rfl⟩

/-- C6: `normalise_command` is a total function equal to splitting on
whitespace runs and rejoining with single spaces (so it trims the ends and
collapses internal runs), it is idempotent, and
`normalise_command "  ls   -l  " = "ls -l"`. -/
theorem normalise_command_idempotent :
    (∀ x : PyStr, normalise_command x = py_join " ".data (py_split x)) ∧
    (∀ x : PyStr, normalise_command (normalise_command x) = normalise_command x) ∧
    normalise_command "  ls   -l  ".data = "ls -l".data :=
  ⟨normalise_eq_join_split, normalise_idem, by decide⟩

/-- C1 counterexample: the user input `""` normalises to the empty string,
yet `check_command "" (some " ")` returns `true` — the whitespace-only
expected command `" "` is truthy in Python and also normalises to the empty
string, so Rule 1 (exact match after normalisation) fires. -/
theorem check_command_empty_matches_whitespace :
    normalise_command "".data = [] ∧
    check_command "".data (some " ".data) = true := by
  constructor
  · decide
  · decide

/-- C1 (amended): if the user input normalises to the empty string, then
`check_command` returns `true` exactly when the expected command is present,
non-empty as a raw string, and itself normalises to the empty string
(i.e. is whitespace-only); in every other case — expected absent, empty, or
normalising to something non-empty — it returns `false`. -/
theorem check_command_empty_input (u : PyStr) (ec : Option PyStr)
    (h : normalise_command u = []) :
    check_command u ec = true ↔
      ∃ e, ec = some e ∧ e ≠ [] ∧ normalise_command e = [] := by
  cases ec with
  | none => simp [check_command]
  | some e =>
    by_cases he : e = []
    · subst he
      simp [check_command]
    · rw [check_command_some u e he]
      by_cases hen : normalise_command e = []
      · rw [h, hen]
        simp [he, hen]
      · have h1 : ¬(normalise_command u = normalise_command e) := by
          rw [h]
          exact fun hh => hen hh.symm
        have hu : py_split (normalise_command u) = [] := by
          rw [h]
          rfl
        rw [if_neg h1]
        simp [hu, he, hen]

/-- C1 amended-theorem witness: instantiating at the whitespace-only
expected command `" "`. -/
theorem check_command_empty_input_witness :
    check_command "".data (some " ".data) = true := by
  have h := check_command_empty_input "".data (some " ".data) (by decide)
  exact h.mpr ⟨" ".data, rfl, by decide, by decide⟩

/-- C3: Rule 4 (editor substitution) — with expected first token `nano` and
user first token `nano` or `vi`, the verdict is equality of the second
tokens when both sides have at least two tokens, and otherwise only Rule 1's
exact comparison can still return true; together with the three concrete
examples from the specification. -/
theorem matcher_editor_substitution :
    (∀ u e : PyStr,
      (py_split (normalise_command e)).headD [] = "nano".data →
      (py_split (normalise_command u)).headD [] = "nano".data ∨
        (py_split (normalise_command u)).headD [] = "vi".data →
      check_command u (some e) =
        if 1 < (py_split (normalise_command e)).length ∧
            1 < (py_split (normalise_command u)).length then
          decide ((py_split (normalise_command e)).getD 1 [] =
            (py_split (normalise_command u)).getD 1 [])
        else decide (normalise_command u = normalise_command e)) ∧
    check_command "vi notes.txt".data (some "nano notes.txt".data) = true ∧
    check_command "vi other.txt".data (some "nano notes.txt".data) = false ∧
    check_command "vi".data (some "nano notes.txt".data) = false :=
  ⟨check_command_rule4, by decide, by decide, by decide⟩

/-- C3 witness: the general Rule 4 statement instantiated at
`("vi draft.md", "nano draft.md")`, where both sides have two tokens and the
second tokens agree. -/
theorem matcher_editor_substitution_witness :
    check_command "vi draft.md".data (some "nano draft.md".data) = true := by
  have h := matcher_editor_substitution.1 "vi draft.md".data "nano draft.md".data
    (by decide) (Or.inr (by decide))
  rw [h]
  decide

/-- C10: Rule 4 compares only the second tokens and ignores everything after
them — whenever the first tokens qualify, both sides have at least two
tokens and the second tokens agree, `check_command` returns true, as in
`check_command "vi notes.txt -w" (some "nano notes.txt") = true`. -/
theorem matcher_rule4_ignores_trailing :
    (∀ u e : PyStr,
      (py_split (normalise_command e)).headD [] = "nano".data →
      (py_split (normalise_command u)).headD [] = "nano".data ∨
        (py_split (normalise_command u)).headD [] = "vi".data →
      1 < (py_split (normalise_command e)).length →
      1 < (py_split (normalise_command u)).length →
      (py_split (normalise_command e)).getD 1 [] =
        (py_split (normalise_command u)).getD 1 [] →
      check_command u (some e) = true) ∧
    check_command "vi notes.txt -w".data (some "nano notes.txt".data) = true := by
  constructor
  · intro u e he hu hle hlu heq
    rw [check_command_rule4 u e he hu, if_pos ⟨hle, hlu⟩]
    exact decide_eq_true heq
  · decide

/-- C10 witness: the general statement instantiated at
`("nano memo.txt extra junk", "nano memo.txt other")`, where later tokens
differ but the second tokens agree. -/
theorem matcher_rule4_ignores_trailing_witness :
    check_command "nano memo.txt extra junk".data (some "nano memo.txt other".data) = true := by
  have h := matcher_rule4_ignores_trailing.1 "nano memo.txt extra junk".data
    "nano memo.txt other".data (by decide) (Or.inl (by decide)) (by decide) (by decide) (by decide)
  exact h

/-- Rule 2 in general form: when the normalised expected command is exactly
`ls` and the user's first token is `ls`, the verdict is true whatever the
user's trailing arguments are. -/
theorem check_command_ls_tolerant (u e : PyStr)
    (he : normalise_command e = "ls".data)
    (hu : (py_split (normalise_command u)).headD [] = "ls".data) :
    check_command u (some e) = true := by
  have hene : e ≠ [] := by
    intro hh
    subst hh
    exact absurd he (by decide)
  rw [check_command_some u e hene]
  by_cases h1 : normalise_command u = normalise_command e
  · rw [if_pos h1]
  · rw [if_neg h1, if_pos ⟨he, hu⟩]

/-- Rule 3 in general form: when the normalised expected command is exactly
`history` and the user's first token is `history`, the verdict is true
whatever the user's trailing arguments are. -/
theorem check_command_history_tolerant (u e : PyStr)
    (he : normalise_command e = "history".data)
    (hu : (py_split (normalise_command u)).headD [] = "history".data) :
    check_command u (some e) = true := by
  have hene : e ≠ [] := by
    intro hh
    subst hh
    exact absurd he (by decide)
  rw [check_command_some u e hene]
  by_cases h1 : normalise_command u = normalise_command e
  · rw [if_pos h1]
  · rw [if_neg h1]
    have hls : ¬(normalise_command e = "ls".data ∧
        (py_split (normalise_command u)).headD [] = "ls".data) := by
      rintro ⟨h2, -⟩
      rw [h2] at he
      exact absurd he (by decide)
    rw [if_neg hls, if_pos ⟨he, hu⟩]

/-- The tolerance is one-directional: a bare `ls` from the user never
matches an expected command whose first token is `ls` but which has further
arguments. -/
theorem check_command_ls_bare_fails (e : PyStr)
    (he : (py_split (normalise_command e)).headD [] = "ls".data)
    (hl : 1 < (py_split (normalise_command e)).length) :
    check_command "ls".data (some e) = false := by
  have hene : e ≠ [] := by
    intro hh
    subst hh
    exact absurd he (by decide)
  have hnorm : normalise_command "ls".data = "ls".data := by decide
  have hnotls : ¬(normalise_command e = "ls".data) := by
    intro h2
    rw [h2] at hl
    exact absurd hl (by decide)
  rw [check_command_some "ls".data e hene]
  have h1 : ¬(normalise_command "ls".data = normalise_command e) := by
    rw [hnorm]
    exact fun hh => hnotls hh.symm
  rw [if_neg h1]
  rw [if_neg (fun hand => hnotls hand.1)]
  have hhist : ¬(normalise_command e = "history".data ∧
      (py_split (normalise_command "ls".data)).headD [] = "history".data) := by
    rintro ⟨h2, -⟩
    rw [h2] at he
    exact absurd he (by decide)
  rw [if_neg hhist]
  have hnano : ¬((py_split (normalise_command e)).headD [] = "nano".data ∧
      ((py_split (normalise_command "ls".data)).headD [] = "nano".data ∨
       (py_split (normalise_command "ls".data)).headD [] = "vi".data)) := by
    rintro ⟨h2, -⟩
    rw [he] at h2
    exact absurd h2 (by decide)
  rw [if_neg hnano]

/-- The tolerance is one-directional: a bare `history` from the user never
matches an expected command whose first token is `history` but which has
further arguments. -/
theorem check_command_history_bare_fails (e : PyStr)
    (he : (py_split (normalise_command e)).headD [] = "history".data)
    (hl : 1 < (py_split (normalise_command e)).length) :
    check_command "history".data (some e) = false := by
  have hene : e ≠ [] := by
    intro hh
    subst hh
    exact absurd he (by decide)
  have hnorm : normalise_command "history".data = "history".data := by decide
  have hnothist : ¬(normalise_command e = "history".data) := by
    intro h2
    rw [h2] at hl
    exact absurd hl (by decide)
  rw [check_command_some "history".data e hene]
  have h1 : ¬(normalise_command "history".data = normalise_command e) := by
    rw [hnorm]
    exact fun hh => hnothist hh.symm
  rw [if_neg h1]
  have hls : ¬(normalise_command e = "ls".data ∧
      (py_split (normalise_command "history".data)).headD [] = "ls".data) := by
    rintro ⟨h2, -⟩
    rw [h2] at he
    exact absurd he (by decide)
  rw [if_neg hls]
  rw [if_neg (fun hand => hnothist hand.1)]
  have hnano : ¬((py_split (normalise_command e)).headD [] = "nano".data ∧
      ((py_split (normalise_command "history".data)).headD [] = "nano".data ∨
       (py_split (normalise_command "history".data)).headD [] = "vi".data)) := by
    rintro ⟨h2, -⟩
    rw [he] at h2
    exact absurd h2 (by decide)
  rw [if_neg hnano]

/-- C4: the `ls` and `history` tolerances are one-directional — the user may
add trailing arguments when the expected command is bare, but a bare user
command never matches an expected command carrying trailing arguments;
together with the four concrete examples from the specification. -/
theorem matcher_one_directional_tolerance :
    (∀ u e : PyStr, normalise_command e = "ls".data →
      (py_split (normalise_command u)).headD [] = "ls".data →
      check_command u (some e) = true) ∧
    (∀ u e : PyStr, normalise_command e = "history".data →
      (py_split (normalise_command u)).headD [] = "history".data →
      check_command u (some e) = true) ∧
    (∀ e : PyStr, (py_split (normalise_command e)).headD [] = "ls".data →
      1 < (py_split (normalise_command e)).length →
      check_command "ls".data (some e) = false) ∧
    (∀ e : PyStr, (py_split (normalise_command e)).headD [] = "history".data →
      1 < (py_split (normalise_command e)).length →
      check_command "history".data (some e) = false) ∧
    check_command "ls -la".data (some "ls".data) = true ∧
    check_command "ls".data (some "ls -la".data) = false ∧
    check_command "history 5".data (some "history".data) = true ∧
    check_command "history".data (some "history 5".data) = false :=
  ⟨check_command_ls_tolerant, check_command_history_tolerant,
   check_command_ls_bare_fails, check_command_history_bare_fails,
   by decide, by decide, by decide, by decide⟩

/-- C4 witness: the general tolerance statement instantiated at
`("ls -a /tmp", "ls")` and the one-directional failure at
`("history", "history 20")`. -/
theorem matcher_one_directional_tolerance_witness :
    check_command "ls -a /tmp".data (some "ls".data) = true ∧
    check_command "history".data (some "history 20".data) = false :=
  ⟨matcher_one_directional_tolerance.1 "ls -a /tmp".data "ls".data (by decide) (by decide),
   (matcher_one_directional_tolerance.2.2.2.1) "history 20".data (by decide) (by decide)⟩

/-! Model of the Session Runner (src/trainer.py, `main`).

The runner is modelled as a pure function from the loaded level list, the
sequence of lines available on standard input, and an execution oracle for
`subprocess.run`, to the list of observable events (log writes and the
claim-relevant console messages) plus a session outcome.  Loading the level
JSON files, colour styling, and the welcome banner are plain I/O outside the
claims and are not modelled.  Exhausting the input list models `input()`
raising `EOFError` — an uncaught exception inside the `try` block, i.e. the
"unexpected error during the loop" exit path. -/

/-- One training level as `main` reads it: every field is fetched from the
level dictionary with `level.get(...)`, so each may be absent. -/
structure Level where
  number : Option Int
  title : Option PyStr
  description : Option PyStr
  expected_command : Option PyStr
  hint : Option PyStr
deriving DecidableEq

/-- Result of one `subprocess.run(argv, capture_output=True, text=True,
check=False)` call: either the process ran (any exit status, since
`check=False`) or the call raised an exception. -/
inductive ExecResult where
  | ran (stdout : PyStr) (stderr : PyStr) (returncode : Int)
  | raised
deriving DecidableEq

/-- Observable events of a session: the log writes performed on
`log_file` and the claim-relevant console messages, in program order.
`logSessionStart` and `logSessionEnd` are the timestamped
`"Session started/ended at {datetime.now().isoformat()}"` writes. -/
inductive Ev where
  | logSessionStart
  | logNoLevels
  | showLevel (lv : Level)
  | logInput (number : Option Int) (input : PyStr)
  | logUserExited
  | printHint (h : PyStr)
  | printNoHint
  | printCorrect
  | execCommand (argv : List PyStr)
  | printOutput (s : PyStr)
  | printError (s : PyStr)
  | printSkipped
  | printWrong
  | printCongrats
  | logSessionEnd
  | logClose
deriving DecidableEq

/-- How the per-level input loop ends. -/
inductive LoopOut where
  | solved
  | quit
  | error
deriving DecidableEq

/-- How the whole session ends. -/
inductive SessOut where
  | completed
  | quit
  | error
  | noLevels
deriving DecidableEq

/-- The fixed allow-list of commands `main` is willing to execute
(`safe_commands` in src/trainer.py). -/
def safe_commands : List PyStr :=
  ["pwd".data, "ls".data, "whoami".data, "echo".data, "clear".data,
   "date".data, "history".data]

/-- The demonstration step after a correct answer (src/trainer.py lines
174-196): compute `base = user_input.split()[0] if user_input else ""`;
if it is allow-listed, run `subprocess.run(user_input.split(), ...)`,
printing stripped stdout and stderr when non-empty, with any exception
swallowed by `except: pass`; otherwise report that execution was skipped. -/
def execDemo (exec : List PyStr → ExecResult) (user_input : PyStr) : List Ev :=
  let base := if user_input ≠ [] then (py_split user_input).headD [] else []
  if base ∈ safe_commands then
    match exec (py_split user_input) with
    | ExecResult.ran out err _ =>
      Ev.execCommand (py_split user_input) ::
        ((if py_strip out ≠ [] then [Ev.printOutput (py_strip out)] else []) ++
         (if py_strip err ≠ [] then [Ev.printError (py_strip err)] else []))
    | ExecResult.raised => [Ev.execCommand (py_split user_input)]
  else
    [Ev.printSkipped]

/-- The inner `while True` prompt loop of `main` for one level
(src/trainer.py lines 140-203).  Each iteration reads and strips a line,
logs it, then classifies it: `exit`/`quit` (case-insensitive) returns from
`main`; `hint` prints the hint or a fallback and continues; otherwise the
Matcher is consulted, a correct answer triggers the demonstration step and
breaks to the next level, and a wrong answer prints a retry message and
continues.  An empty input list models `input()` raising `EOFError`. -/
def runLevelLoop (exec : List PyStr → ExecResult) (lv : Level) :
    List PyStr → List Ev × List PyStr × LoopOut
  | [] => ([], [], LoopOut.error)
  | raw :: rest =>
    let user_input := py_strip raw
    let logEv := Ev.logInput lv.number user_input
    if py_lower user_input = "exit".data ∨ py_lower user_input = "quit".data then
      ([logEv, Ev.logUserExited], rest, LoopOut.quit)
    else if py_lower user_input = "hint".data then
      let hintEv := if lv.hint.getD [] ≠ [] then Ev.printHint (lv.hint.getD [])
        else Ev.printNoHint
      let r := runLevelLoop exec lv rest
      (logEv :: hintEv :: r.1, r.2.1, r.2.2)
    else if check_command user_input lv.expected_command then
      (logEv :: Ev.printCorrect :: execDemo exec user_input, rest, LoopOut.solved)
    else
      let r := runLevelLoop exec lv rest
      (logEv :: Ev.printWrong :: r.1, r.2.1, r.2.2)

/-- The `for level in levels` loop of `main` (src/trainer.py lines 127-210),
including the congratulation message after the final level.  A quit or an
uncaught error inside a level ends the whole loop. -/
def runLevels (exec : List PyStr → ExecResult) :
    List Level → List PyStr → List Ev × SessOut
  | [], _ => ([Ev.printCongrats], SessOut.completed)
  | lv :: lvs, inputs =>
    let r := runLevelLoop exec lv inputs
    match r.2.2 with
    | LoopOut.solved =>
      let r' := runLevels exec lvs r.2.1
      (Ev.showLevel lv :: r.1 ++ r'.1, r'.2)
    | LoopOut.quit => (Ev.showLevel lv :: r.1, SessOut.quit)
    | LoopOut.error => (Ev.showLevel lv :: r.1, SessOut.error)

/-- `main` from src/trainer.py: write the session-start line; if no levels
were loaded, write the "No levels loaded" line, close the log and return
(src/trainer.py lines 105-109, before the `try` block); otherwise run the
level loop inside `try ... finally`, so the timestamped session-end line is
written and the log closed on normal completion, on explicit quit, and when
an uncaught exception escapes the loop. -/
def trainer_main (exec : List PyStr → ExecResult) (levels : List Level)
    (inputs : List PyStr) : List Ev × SessOut :=
  if levels = [] then
    ([Ev.logSessionStart, Ev.logNoLevels, Ev.logClose], SessOut.noLevels)
  else
    let r := runLevels exec levels inputs
    ([Ev.logSessionStart] ++ r.1 ++ [Ev.logSessionEnd, Ev.logClose], r.2)

/-- The sequence of levels displayed to the user, in display order. -/
def levelsShown (evs : List Ev) : List Level :=
  evs.filterMap fun e =>
    match e with
    | Ev.showLevel lv => some lv
    | _ => none

example :
    (trainer_main (fun _ => ExecResult.raised)
      [⟨some 1, none, none, some "pwd".data, none⟩,
       ⟨some 2, none, none, some "ls".data, none⟩]
      ["wrong".data, "hint".data, "pwd".data, "ls -l".data]).2 = SessOut.completed := by
  decide

example :
    (trainer_main (fun _ => ExecResult.raised)
      [⟨some 1, none, none, some "pwd".data, none⟩]
      ["exit".data]).2 = SessOut.quit := by
  decide

theorem levelsShown_cons_show (lv : Level) (l : List Ev) :
    levelsShown (Ev.showLevel lv :: l) = lv :: levelsShown l := rfl

theorem levelsShown_append (l₁ l₂ : List Ev) :
    levelsShown (l₁ ++ l₂) = levelsShown l₁ ++ levelsShown l₂ := by
  simp [levelsShown]

theorem levelsShown_execDemo (exec : List PyStr → ExecResult) (u : PyStr) :
    levelsShown (execDemo exec u) = [] := by
  cases hexec : exec (py_split u) with
  | ran out err rc =>
    simp only [execDemo, hexec]
    split_ifs <;> rfl
  | raised =>
    simp only [execDemo, hexec]
    split_ifs <;> rfl

theorem levelsShown_runLevelLoop (exec : List PyStr → ExecResult) (lv : Level) :
    ∀ inputs : List PyStr, levelsShown (runLevelLoop exec lv inputs).1 = [] := by
  intro inputs
  induction inputs with
  | nil => rfl
  | cons raw rest ih =>
    simp only [runLevelLoop]
    split_ifs
    · rfl
    · exact ih
    · exact ih
    · exact levelsShown_execDemo exec (py_strip raw)
    · exact ih

theorem levelsShown_runLevels (exec : List PyStr → ExecResult) :
    ∀ (lvs : List Level) (inputs : List PyStr),
      ∃ n, levelsShown (runLevels exec lvs inputs).1 = lvs.take n := by
  intro lvs
  induction lvs with
  | nil => exact fun _ => ⟨0, rfl⟩
  | cons lv lvs ih =>
    intro inputs
    simp only [runLevels]
    cases hout : (runLevelLoop exec lv inputs).2.2 with
    | solved =>
      obtain ⟨n, hn⟩ := ih (runLevelLoop exec lv inputs).2.1
      refine ⟨n + 1, ?_⟩
      show levelsShown (Ev.showLevel lv :: ((runLevelLoop exec lv inputs).1 ++
        (runLevels exec lvs (runLevelLoop exec lv inputs).2.1).1)) = List.take (n + 1) (lv :: lvs)
      rw [levelsShown_cons_show, levelsShown_append, levelsShown_runLevelLoop, hn]
      simp [List.take_succ_cons]
    | quit =>
      refine ⟨1, ?_⟩
      show levelsShown (Ev.showLevel lv :: (runLevelLoop exec lv inputs).1) =
        List.take 1 (lv :: lvs)
      rw [levelsShown_cons_show, levelsShown_runLevelLoop]
      simp
    | error =>
      refine ⟨1, ?_⟩
      show levelsShown (Ev.showLevel lv :: (runLevelLoop exec lv inputs).1) =
        List.take 1 (lv :: lvs)
      rw [levelsShown_cons_show, levelsShown_runLevelLoop]
      simp

/-- C9: the loaded level sequence is never reordered and the current-level
index never moves backwards — in any run, the sequence of levels displayed
is an initial prefix of the loaded sequence, in load order. -/
theorem session_levels_monotone (exec : List PyStr → ExecResult)
    (lvs : List Level) (inputs : List PyStr) :
    ∃ n, levelsShown (trainer_main exec lvs inputs).1 = lvs.take n := by
  by_cases h : lvs = []
  · subst h
    exact ⟨0, rfl⟩
  · simp only [trainer_main, if_neg h]
    obtain ⟨n, hn⟩ := levelsShown_runLevels exec lvs inputs
    refine ⟨n, ?_⟩
    show levelsShown ((runLevels exec lvs inputs).1 ++ [Ev.logSessionEnd, Ev.logClose]) =
      lvs.take n
    rw [levelsShown_append, hn]
    simp [levelsShown]

/-- C2 counterexample: on the "no level data" exit path the runner writes
the plain "No levels loaded. Exiting." line and closes the log, but writes
no timestamped session-end entry — that write sits inside the `try/finally`
block, which this early `return` (src/trainer.py line 109) never enters. -/
theorem trainer_no_levels_missing_session_end :
    (trainer_main (fun _ => ExecResult.raised) [] []).1 =
      [Ev.logSessionStart, Ev.logNoLevels, Ev.logClose] ∧
    Ev.logSessionEnd ∉ (trainer_main (fun _ => ExecResult.raised) [] []).1 := by
  constructor
  · rfl
  · decide

/-- C2 (amended): on every exit path the log sink is closed; the timestamped
session-end entry is written on normal completion, explicit quit and the
uncaught-error path (all of which run the `finally` block), while the
no-level-data path instead writes the "No levels loaded" line before
closing. -/
theorem trainer_log_finalisation (exec : List PyStr → ExecResult)
    (levels : List Level) (inputs : List PyStr) :
    (∃ pre, (trainer_main exec levels inputs).1 = pre ++ [Ev.logClose]) ∧
    (levels ≠ [] →
      ∃ pre, (trainer_main exec levels inputs).1 =
        pre ++ [Ev.logSessionEnd, Ev.logClose]) ∧
    (levels = [] →
      (trainer_main exec levels inputs).1 =
        [Ev.logSessionStart, Ev.logNoLevels, Ev.logClose]) := by
  by_cases h : levels = []
  · subst h
    exact ⟨⟨[Ev.logSessionStart, Ev.logNoLevels], rfl⟩,
      fun hne => absurd rfl hne, fun _ => rfl⟩
  · simp only [trainer_main, if_neg h]
    refine ⟨⟨[Ev.logSessionStart] ++ (runLevels exec levels inputs).1 ++ [Ev.logSessionEnd],
      by simp⟩, fun _ => ⟨[Ev.logSessionStart] ++ (runLevels exec levels inputs).1, by simp⟩,
      fun he => absurd he h⟩

/-- C2 amended-theorem witness: a one-level session whose input is
exhausted immediately (the uncaught-`EOFError` path) still ends the log
with the timestamped session-end entry and the close. -/
theorem trainer_log_finalisation_witness :
    ∃ pre, (trainer_main (fun _ => ExecResult.raised)
      [⟨some 1, none, none, some "pwd".data, none⟩] []).1 =
        pre ++ [Ev.logSessionEnd, Ev.logClose] :=
  (trainer_log_finalisation (fun _ => ExecResult.raised)
    [⟨some 1, none, none, some "pwd".data, none⟩] []).2.1 (by simp)

/-- C7: classification precedes matching in every state of the loop — a
stripped input whose lowercasing is `exit` or `quit` immediately ends the
level loop (and the whole session) with only the log entries written,
independently of the level's expected command; a `hint` input prints the
hint or the fallback and leaves the loop exactly where it was; every other
input is handed to `check_command` against the current level's
`expected_command`. -/
theorem runner_input_classification (exec : List PyStr → ExecResult) (lv : Level)
    (raw : PyStr) (rest : List PyStr) :
    (py_lower (py_strip raw) = "exit".data ∨ py_lower (py_strip raw) = "quit".data →
      runLevelLoop exec lv (raw :: rest) =
        ([Ev.logInput lv.number (py_strip raw), Ev.logUserExited], rest, LoopOut.quit)) ∧
    (py_lower (py_strip raw) = "hint".data →
      runLevelLoop exec lv (raw :: rest) =
        (Ev.logInput lv.number (py_strip raw) ::
           (if lv.hint.getD [] ≠ [] then Ev.printHint (lv.hint.getD [])
            else Ev.printNoHint) ::
           (runLevelLoop exec lv rest).1,
         (runLevelLoop exec lv rest).2.1, (runLevelLoop exec lv rest).2.2)) ∧
    (¬(py_lower (py_strip raw) = "exit".data ∨ py_lower (py_strip raw) = "quit".data) →
      py_lower (py_strip raw) ≠ "hint".data →
      runLevelLoop exec lv (raw :: rest) =
        (if check_command (py_strip raw) lv.expected_command then
           (Ev.logInput lv.number (py_strip raw) :: Ev.printCorrect ::
              execDemo exec (py_strip raw), rest, LoopOut.solved)
         else
           (Ev.logInput lv.number (py_strip raw) :: Ev.printWrong ::
              (runLevelLoop exec lv rest).1,
            (runLevelLoop exec lv rest).2.1, (runLevelLoop exec lv rest).2.2))) ∧
    (∀ lvs : List Level,
      py_lower (py_strip raw) = "exit".data ∨ py_lower (py_strip raw) = "quit".data →
      runLevels exec (lv :: lvs) (raw :: rest) =
        ([Ev.showLevel lv, Ev.logInput lv.number (py_strip raw), Ev.logUserExited],
         SessOut.quit)) := by
  refine ⟨fun h => ?_, fun h => ?_, fun h1 h2 => ?_, fun lvs h => ?_⟩
  · simp only [runLevelLoop]
    rw [if_pos h]
  · have hq : ¬(py_lower (py_strip raw) = "exit".data ∨
        py_lower (py_strip raw) = "quit".data) := by
      rintro (h2 | h2) <;> rw [h] at h2 <;> exact absurd h2 (by decide)
    simp only [runLevelLoop]
    rw [if_neg hq, if_pos h]
  · simp only [runLevelLoop]
    rw [if_neg h1, if_neg h2]
  · simp only [runLevels]
    have hloop : runLevelLoop exec lv (raw :: rest) =
        ([Ev.logInput lv.number (py_strip raw), Ev.logUserExited], rest, LoopOut.quit) := by
      simp only [runLevelLoop]
      rw [if_pos h]
    rw [hloop]

/-- C7 witness: a whitespace-padded, mixed-case `Quit` on a level with an
expected command present ends the loop immediately. -/
theorem runner_input_classification_witness :
    runLevelLoop (fun _ => ExecResult.raised)
      ⟨some 3, none, none, some "ls".data, some "try ls".data⟩ ["  Quit ".data] =
      ([Ev.logInput (some 3) (py_strip "  Quit ".data), Ev.logUserExited], [],
       LoopOut.quit) :=
  (runner_input_classification (fun _ => ExecResult.raised)
    ⟨some 3, none, none, some "ls".data, some "try ls".data⟩ "  Quit ".data []).1
    (Or.inr (by decide))

/-- C8: after the Matcher accepts an input, the level is solved for every
behaviour of the execution collaborator (success, failure status or raised
exception) — execution is attempted exactly when the first
whitespace-delimited token of the input is in the fixed allow-list, a
non-allow-listed command is reported as skipped, and the remaining input
and outcome never depend on the execution result. -/
theorem runner_safe_execution (exec exec' : List PyStr → ExecResult) (lv : Level)
    (raw : PyStr) (rest : List PyStr)
    (hq : ¬(py_lower (py_strip raw) = "exit".data ∨
      py_lower (py_strip raw) = "quit".data))
    (hh : py_lower (py_strip raw) ≠ "hint".data)
    (hc : check_command (py_strip raw) lv.expected_command = true) :
    runLevelLoop exec lv (raw :: rest) =
      (Ev.logInput lv.number (py_strip raw) :: Ev.printCorrect ::
         execDemo exec (py_strip raw), rest, LoopOut.solved) ∧
    (runLevelLoop exec' lv (raw :: rest)).2 = (rest, LoopOut.solved) ∧
    ((if py_strip raw ≠ [] then (py_split (py_strip raw)).headD [] else []) ∈
        safe_commands ↔
      ∃ argv, Ev.execCommand argv ∈ execDemo exec (py_strip raw)) ∧
    ((if py_strip raw ≠ [] then (py_split (py_strip raw)).headD [] else []) ∉
        safe_commands →
      execDemo exec (py_strip raw) = [Ev.printSkipped]) := by
  have hstep : ∀ e : List PyStr → ExecResult,
      runLevelLoop e lv (raw :: rest) =
        (Ev.logInput lv.number (py_strip raw) :: Ev.printCorrect ::
           execDemo e (py_strip raw), rest, LoopOut.solved) := by
    intro e
    simp only [runLevelLoop]
    rw [if_neg hq, if_neg hh, if_pos hc]
  refine ⟨hstep exec, by rw [hstep exec'], ?_, fun hb => ?_⟩
  · constructor
    · intro hb
      cases hexec : exec (py_split (py_strip raw)) with
      | ran out err rc =>
        refine ⟨py_split (py_strip raw), ?_⟩
        simp only [execDemo, hexec, if_pos hb]
        exact List.mem_cons_self _ _
      | raised =>
        refine ⟨py_split (py_strip raw), ?_⟩
        simp only [execDemo, hexec, if_pos hb]
        exact List.mem_singleton.mpr rfl
    · rintro ⟨argv, hargv⟩
      by_contra hb
      rw [show execDemo exec (py_strip raw) = [Ev.printSkipped] from by
        simp only [execDemo]; rw [if_neg hb]] at hargv
      exact absurd (List.mem_singleton.mp hargv) (by simp)
  · simp only [execDemo]
    rw [if_neg hb]

/-- C8 witness: a correct `pwd` answer on a level expecting `pwd`, with an
oracle whose execution raises, still solves the level. -/
theorem runner_safe_execution_witness :
    (runLevelLoop (fun _ => ExecResult.raised)
      ⟨some 1, none, none, some "pwd".data, none⟩ ["pwd".data]).2.2 = LoopOut.solved := by
  have h := runner_safe_execution (fun _ => ExecResult.raised)
    (fun _ => ExecResult.raised) ⟨some 1, none, none, some "pwd".data, none⟩
    "pwd".data [] (by decide) (by decide) (by decide)
  rw [h.1]
